import Mathlib

/-!
# Verification of the snapshot-based wiki crawler (`crawler.py`)

Shallow embedding of the content-transformation pipeline, metadata
extraction, override registry and relationship resolver of the `Page`
class, together with the parts of `Snapshot` they consume.

Modelling conventions:
* BeautifulSoup selector results are represented by the data the code
  actually reads from them: a raw page record carries the `#page-content`
  region (presence, its serialized body, and the anchors inside it), the
  `#page-title` text, the tag strings, the breadcrumb hrefs, the
  discussion-button text and the rating text.  HTML-tree passes that the
  claims address individually (tab views, image handling) are modelled on
  their own input types below.
* Python exceptions are `Except PyErr`; `PyErr.dbPageMissing` stands for
  `DBPage.DoesNotExist` (the only exception `children()` catches), every
  other exception is `PyErr.other`.
* Python string operations are re-implemented structurally over `List
  Char` so that every definition evaluates inside the kernel.
-/

/-- Decidable equality for `Except`, used to evaluate the model on
concrete snapshots. -/
instance {ε α : Type} [DecidableEq ε] [DecidableEq α] : DecidableEq (Except ε α)
  | .error a, .error b =>
    if h : a = b then .isTrue (by rw [h]) else .isFalse (by intro hh; cases hh; exact h rfl)
  | .error _, .ok _ => .isFalse (by intro h; cases h)
  | .ok _, .error _ => .isFalse (by intro h; cases h)
  | .ok a, .ok b =>
    if h : a = b then .isTrue (by rw [h]) else .isFalse (by intro hh; cases hh; exact h rfl)

namespace Crawler

/-- Python exceptions relevant to the crawler.  `dbPageMissing` is
`DBPage.DoesNotExist`; all other exception classes are collapsed into
`other` (the code never catches them selectively). -/
inductive PyErr where
  | dbPageMissing
  | other
deriving DecidableEq, Repr

/-- Python values that can end up in `Page.comments`: the code stores the
matched digit string on success and the `int` `0` on failure. -/
inductive PyVal where
  | s (v : String)
  | i (n : Int)
deriving DecidableEq, Repr

/-- Test whether the value is a Python `int`. -/
def PyVal.isInt : PyVal → Bool
  | .s _ => false
  | .i _ => true

/-! ## Python string primitives, re-implemented structurally -/

/-- Python `str.strip()` (whitespace from both ends). -/
def pyStrip (s : String) : String :=
  ⟨((s.data.dropWhile Char.isWhitespace).reverse.dropWhile Char.isWhitespace).reverse⟩

/-- Python `str.rstrip("|")`. -/
def rstripPipe (s : String) : String :=
  ⟨(s.data.reverse.dropWhile (fun c => c == '|')).reverse⟩

/-- Python `s[-4:]`: the last four characters (the whole string when it is
shorter, matching truncated subtraction). -/
def pyTail4 (s : String) : String :=
  ⟨s.data.drop (s.data.length - 4)⟩

/-- Python `str.split(sep)` for a one-character separator: keeps empty
pieces, `""` splits to `[""]`. -/
def splitChar (sep : Char) : List Char → List (List Char)
  | [] => [[]]
  | c :: cs =>
    let r := splitChar sep cs
    if c == sep then [] :: r
    else
      match r with
      | [] => [[c]]
      | h :: t => (c :: h) :: t

/-- Python `url.split("/")`. -/
def pySplitSlash (s : String) : List String :=
  (splitChar '/' s.data).map fun cs => ⟨cs⟩

/-- Model of `re.search('[0-9]+', s)`: the leftmost maximal digit run, scanning the
characters one by one exactly as the regex engine does. -/
def reSearchDigits : List Char → Option (List Char)
  | [] => none
  | c :: cs =>
    if c.isDigit then some (c :: cs.takeWhile Char.isDigit)
    else reSearchDigits cs

/-- Model of `re.search('[0-9]+$', s)`: the maximal digit run ending the string,
if nonempty. -/
def urlTrailingNum (url : String) : Option String :=
  let ds := url.data.reverse.takeWhile Char.isDigit
  if ds.isEmpty then none else some ⟨ds.reverse⟩

/-- Model of `re.search("[scp]+-[0-9]+$", url)`: some suffix made of one or more
characters from `{s,c,p}`, a dash, and one or more trailing digits. -/
def scpUrlMatch (url : String) : Bool :=
  let r := url.data.reverse
  let ds := r.takeWhile Char.isDigit
  let rest := r.drop ds.length
  !ds.isEmpty &&
    match rest with
    | '-' :: c :: _ => c == 's' || c == 'c' || c == 'p'
    | _ => false

/-! ## Data model -/

/-- One row of the parsed revision history (`Page._parse_history`). -/
structure Revision where
  number : Int
  user : String
  time : String
  comment : String
deriving DecidableEq, Repr

/-- A row of the rewrite table (`Snapshot.rewrite`). -/
structure Rewrite where
  author : String
  override : Bool
deriving DecidableEq, Repr

/-- An entry of `Page.authors` (the `author` namedtuple). -/
structure Author where
  username : String
  status : String
deriving DecidableEq, Repr

/-- The `#page-content` region of a raw record: `bodyHtml` is the
serialized result of the DOM-rewrite passes (modelled separately on
their own input types), `anchors` the `href` attributes (or their
absence) of the `a` elements inside the region, in document order. -/
structure ContentRegion where
  bodyHtml : String
  anchors : List (Option String)
deriving DecidableEq, Repr

/-- A raw page record, as the selector-level view `Page.__init__` reads
from `pd.html`/`pd.history`: `history` is the parsed revision list in the
oldest-first order produced by `_parse_history`'s reversal (absent when
`pd.history` is `None`). -/
structure RawPage where
  content : Option ContentRegion
  pageTitleText : Option String
  tags : List String
  breadcrumbHrefs : List (Option String)
  discussText : Option String
  ratingText : Option String
  history : Option (List Revision)
deriving DecidableEq, Repr

/-- The snapshot database: url-keyed page records, the rewrite table, the
SCP title table (by url and by skip code) and the image catalog keys. -/
structure Snapshot where
  pages : List (String × RawPage)
  rewrites : List (String × Rewrite)
  titlesByUrl : List (String × String)
  titlesBySkip : List (String × String)
  imageCatalog : List String
deriving DecidableEq, Repr

/-- Site root as used by `links()`/`children()` url construction. -/
def siteRoot : String := "http://www.scp-wiki.net"

/-- Site prefix (with trailing slash) as used by `_override`. -/
def siteBase : String := "http://www.scp-wiki.net/"

/-! ## Metadata extraction -/

/-- The `#discuss-button` handling in `Page._parse_html`: the whole block is
wrapped in a bare `except` that falls back to the `int` `0`; on success
the *string* matched by `re.search('[0-9]+', ...)` is stored. -/
def parseComments (discussText : Option String) : PyVal :=
  match discussText with
  | none => .i 0
  | some t =>
    match reSearchDigits t.data with
    | none => .i 0
    | some ds => .s ⟨ds⟩

/-- Model of `Page._meta_authors`, given the earliest revision's user and the
rewrite-table entry for the url (`Snapshot.rewrite` returns `False`,
i.e. `none`, when the url has no row). -/
def metaAuthors (hisAuthor : String) (rw : Option Rewrite) : List Author :=
  match rw with
  | some r =>
    if r.override then [⟨r.author, "original"⟩]
    else [⟨hisAuthor, "original"⟩, ⟨r.author, "rewrite"⟩]
  | none => [⟨hisAuthor, "original"⟩]

/-- Model of `Snapshot.title`: look the url up in the title table; on
`DoesNotExist`, extract the trailing number (an absent match raises
`AttributeError`), build the skip code and look that up (a second miss
raises `DBTitle.DoesNotExist`, which `children()` does not catch). -/
def snapshotTitle (sn : Snapshot) (url : String) : Except PyErr String :=
  match sn.titlesByUrl.lookup url with
  | some t => .ok t
  | none =>
    match urlTrailingNum url with
    | none => .error .other
    | some num =>
      match sn.titlesBySkip.lookup ("SCP-" ++ num) with
      | some t => .ok t
      | none => .error .other

/-- Model of `Page._parse_title`: the stripped `#page-title` text (empty when the
element is missing); for scp-tagged pages whose url matches
`[scp]+-[0-9]+$`, the canonical title is appended after `": "`. -/
def computeTitle (sn : Snapshot) (url : String) (raw : RawPage) : Except PyErr String :=
  let base := match raw.pageTitleText with
    | some t => pyStrip t
    | none => ""
  if raw.tags.contains "scp" && scpUrlMatch url then
    match snapshotTitle sn url with
    | .ok t => .ok (base ++ ": " ++ t)
    | .error e => .error e
  else
    .ok base

/-- Python's `"{}"`-formatting of `Page.data` at the end of
`_parse_html`: `str.format` renders `None` as the string `"None"`. -/
def pyFormatOpt : Option String → String
  | none => "None"
  | some s => s

/-- The final `_parse_html` step: the title paragraph, tagged by document
type, is prepended *unconditionally* to the formatted body. -/
def titleInsert (tags : List String) (title body : String) : String :=
  (if tags.contains "scp" then "<p class=\x27scp-title\x27>" else "<p class=\x27tale-title\x27>")
    ++ title ++ "</p>" ++ body

/-! ## Page construction -/

/-- The constructed page: `raw` is kept because `links()` and the
breadcrumb check re-parse `_raw_html`. -/
structure Page where
  url : String
  raw : RawPage
  title : String
  data : Option String
  authors : List Author
  comments : PyVal
  rating : Option String
deriving DecidableEq, Repr

/-- The tag list of a page (`self.tags`). -/
def Page.tags (p : Page) : List String := p.raw.tags

/-- Model of `Page.__init__` for a url (including the `ov_data` content override
applied by `_override`): `DBPage.DoesNotExist` when the snapshot has no
record; `_parse_body` leaves `data = None` exactly when `#page-content`
is absent, but the title-insert step then formats that `None` into the
string.  A present-but-empty history table makes `history[0]` raise. -/
def mkPage (sn : Snapshot) (url : String) : Except PyErr Page :=
  match sn.pages.lookup url with
  | none => .error .dbPageMissing
  | some raw =>
    match computeTitle sn url raw with
    | .error e => .error e
    | .ok title =>
      let body := titleInsert raw.tags title
        (pyFormatOpt (raw.content.map ContentRegion.bodyHtml))
      let data := if url == siteBase ++ "scp-1047-j" then none else some body
      match raw.history with
      | none =>
        .ok ⟨url, raw, title, data, [], parseComments raw.discussText, raw.ratingText⟩
      | some [] => .error .other
      | some (r :: _) =>
        .ok ⟨url, raw, title, data,
          metaAuthors r.user (sn.rewrites.lookup url),
          parseComments raw.discussText, raw.ratingText⟩

/-! ## `Page.links` -/

/-- The anchors `soup.select("#page-content a")` yields on the raw
markup: empty when the region is absent. -/
def contentAnchors (p : Page) : List (Option String) :=
  match p.raw.content with
  | none => []
  | some c => c.anchors

/-- The loop body of `Page.links`: anchors without `href` or with a
non-`/`-initial `href` are skipped, image extensions are skipped, the
site-prefixed and pipe-stripped url is appended unless already present.
An *empty* `href` makes `a["href"][0]` raise `IndexError`. -/
def linksLoop (acc : List String) : List (Option String) → Except PyErr (List String)
  | [] => .ok acc
  | a :: rest =>
    match a with
    | none => linksLoop acc rest
    | some h =>
      match h.data with
      | [] => .error .other
      | c :: _ =>
        if c != '/' then linksLoop acc rest
        else if pyTail4 h == ".png" || pyTail4 h == ".jpg" || pyTail4 h == ".gif" then
          linksLoop acc rest
        else
          let url := rstripPipe (siteRoot ++ h)
          if acc.contains url then linksLoop acc rest
          else linksLoop (acc ++ [url]) rest

/-- Model of `Page.links`. -/
def pyLinks (p : Page) : Except PyErr (List String) :=
  linksLoop [] (contentAnchors p)

/-! ## `Page.children` (the class method, lines 635-676) -/

/-- Model of `any(i in tags for i in keys)`. -/
def tagAny (keys : List String) (tags : List String) : Bool :=
  keys.any fun k => tags.contains k

/-- The lpages loop of `children()`: construct each linked url, skipping
(only) `DBPage.DoesNotExist`, and keep pages whose `data` is not `None`;
any other construction exception propagates. -/
def collectPages (sn : Snapshot) : List String → Except PyErr (List Page)
  | [] => .ok []
  | u :: us =>
    match mkPage sn u with
    | .error .dbPageMissing => collectPages sn us
    | .error e => .error e
    | .ok c =>
      match collectPages sn us with
      | .error e => .error e
      | .ok rest => .ok (if c.data.isSome then c :: rest else rest)

/-- The nested `backlinks(page, child)` of `children()`: the hub url
among the child's links, else the last `#breadcrumbs a` entry (a missing
`href` on it raises `KeyError`) site-prefixed and compared to the hub
url. -/
def backlinksE (hub child : Page) : Except PyErr Bool :=
  match pyLinks child with
  | .error e => .error e
  | .ok cl =>
    if cl.contains hub.url then .ok true
    else
      match child.raw.breadcrumbHrefs.getLast? with
      | none => .ok false
      | some none => .error .other
      | some (some h) => .ok (hub.url == siteRoot ++ h)

/-- Python `any(gen)`: evaluates until the first `True`, propagating an
exception raised before that. -/
def anyME (f : α → Except PyErr Bool) : List α → Except PyErr Bool
  | [] => .ok false
  | x :: xs =>
    match f x with
    | .error e => .error e
    | .ok true => .ok true
    | .ok false => anyME f xs

/-- The confirming list comprehension: re-evaluates the predicate on
every candidate. -/
def filterME (f : α → Except PyErr Bool) : List α → Except PyErr (List α)
  | [] => .ok []
  | x :: xs =>
    match f x with
    | .error e => .error e
    | .ok b =>
      match filterME f xs with
      | .error e => .error e
      | .ok r => .ok (if b then x :: r else r)

/-- The tag filter of the hub branch. -/
def hubCandidates (lpages : List Page) : List Page :=
  lpages.filter fun i => tagAny ["tale", "goi-format", "goi2014"] i.tags

/-- Model of `Page.children`, the class method: empty unless the tags meet
`{scp, hub, goi2014, splash}`; the scp/splash branch keeps
supplement/splash-tagged link targets; the hub-with-tale/goi2014 branch
disambiguates candidates by backlink confirmation with a fall-back to
all candidates; anything else is empty. -/
def childrenMethod (sn : Snapshot) (p : Page) : Except PyErr (List Page) :=
  if !tagAny ["scp", "hub", "goi2014", "splash"] p.tags then .ok []
  else
    match pyLinks p with
    | .error e => .error e
    | .ok ls =>
      match collectPages sn ls with
      | .error e => .error e
      | .ok lpages =>
        if tagAny ["scp", "splash"] p.tags then
          .ok (lpages.filter fun i => tagAny ["supplement", "splash"] i.tags)
        else if p.tags.contains "hub" && tagAny ["tale", "goi2014"] p.tags then
          let mpages := hubCandidates lpages
          match anyME (backlinksE p) mpages with
          | .error e => .error e
          | .ok true => filterME (backlinksE p) mpages
          | .ok false => .ok mpages
        else .ok []

/-! ## `Page._override` children replacement -/

/-- The three replacement strategies of the `ov_children` table. -/
inductive OvStrategy where
  | inrange (lo hi : Nat)
  | exceptUrl (shortUrl : String)
  | emptyList
deriving DecidableEq, Repr

/-- The `ov_children` table of `_override`. -/
def ovChildren : List (String × OvStrategy) :=
  [("scp-2998", .inrange 2 11),
   ("wills-and-ways-hub", .exceptUrl "marshall-carter-and-dark-hub"),
   ("serpent-s-hand-hub", .exceptUrl "black-queen-hub"),
   ("chicago-spirit-hub", .emptyList)]

/-- The `for partial_url, func, args in ov_children` loop: each matching
entry replaces the children thunk, so the last match wins. -/
def findOverride (url : String) : Option OvStrategy :=
  ovChildren.foldl (fun acc e => if url == siteBase ++ e.1 then some e.2 else acc) none

/-- The exception-propagating list comprehension `[f(x) for x in xs]`. -/
def mapME (f : α → Except PyErr β) : List α → Except PyErr (List β)
  | [] => .ok []
  | x :: xs =>
    match f x with
    | .error e => .error e
    | .ok y =>
      match mapME f xs with
      | .error e => .error e
      | .ok ys => .ok (y :: ys)

/-- Running one override strategy: `_inrange` constructs a page per
numeric suffix (an absent record raises, uncaught); `_except` filters
the normally resolved children by exact url; `list("")` is `[]`. -/
def runStrategy (sn : Snapshot) (p : Page) : OvStrategy → Except PyErr (List Page)
  | .inrange lo hi =>
    mapME (fun n => mkPage sn (p.url ++ "-" ++ toString n)) (List.range' lo (hi - lo))
  | .exceptUrl x =>
    match childrenMethod sn p with
    | .error e => .error e
    | .ok cs => .ok (cs.filter fun c => c.url != siteBase ++ x)
  | .emptyList => .ok []

/-- The observable `children()` of a constructed page: the `_override`
replacement when the url matches, the class method otherwise. -/
def pageChildren (sn : Snapshot) (p : Page) : Except PyErr (List Page) :=
  match findOverride p.url with
  | some s => runStrategy sn p s
  | none => childrenMethod sn p

/-! ## `Page._parse_tabviews`

One tabbed container is modelled by its title texts
(`ul.yui-nav em`) and its tab blocks (`div.yui-content > div`).
BeautifulSoup tag equality is markup equality, so a block is its
attribute state plus its child list, compared structurally.  The loop
*mutates* the blocks held in the `tabs` list: when `tabs.index(k)` runs,
every earlier block has already been re-attributed and prefixed with its
title element, and `k` itself has just been re-attributed. -/

/-- A child node of a tab block: either an inserted/pre-existing
`<div class="tab-title">s</div>` or any other markup. -/
inductive TabNode where
  | titleDiv (s : String)
  | other (markup : String)
deriving DecidableEq, Repr

/-- A tab block: `attrs = none` models
`attrs = {"class": "tabview-tab"}` (the normalized state), `some s` the
original attribute string. -/
structure TabBlock where
  attrs : Option String
  children : List TabNode
deriving DecidableEq, Repr

/-- Python `list.index` (markup equality; first match). -/
def pyIndex [BEq α] (l : List α) (a : α) : Nat :=
  l.findIdx fun x => x == a

/-- The `for k in tabs` loop: re-attribute `k`, look up
`titles[tabs.index(k)]` in the *current* state of the list (earlier
blocks transformed, later ones raw), raise `IndexError` when out of
range, then insert the title element at position 0. -/
def tabLoop (titles : List String) (done : List TabBlock) :
    List TabBlock → Except PyErr (List TabBlock)
  | [] => .ok done
  | k :: rest =>
    let kAttr : TabBlock := ⟨none, k.children⟩
    let idx := pyIndex (done ++ kAttr :: rest) kAttr
    match titles.get? idx with
    | none => .error .other
    | some t => tabLoop titles (done ++ [⟨none, .titleDiv t :: k.children⟩]) rest

/-- Model of `Page._parse_tabviews` on one `div.yui-navset` container. -/
def parseTabview (titles : List String) (tabs : List TabBlock) :
    Except PyErr (List TabBlock) :=
  tabLoop titles [] tabs

/-! ## `Page._parse_images` -/

/-- One ancestor of an `img` element, by the data the wrapper search
reads from it: whether `p.select("table tr td img")` is nonempty, the
length of `p.select("table tr td")`, and the `class` attribute (absent
vs its value list). -/
structure Ancestor where
  hasTableTrTdImg : Bool
  tableTrTdCount : Nat
  classes : Option (List String)
deriving DecidableEq, Repr

/-- The old-style wrapper test. -/
def oldStyle (p : Ancestor) : Bool :=
  p.hasTableTrTdImg && p.tableTrTdCount == 1

/-- The new-style wrapper test (`"class" in p.attrs and
"scp-image-block" in p["class"]`). -/
def newStyle (p : Ancestor) : Bool :=
  match p.classes with
  | some cs => cs.contains "scp-image-block"
  | none => false

/-- What `_parse_images` does to one image element. -/
inductive ImgAction where
  | removeAncestor (i : Nat)
  | removeSelf
  | rewriteSrc (newSrc : String)
deriving DecidableEq, Repr

/-- The `for p in i.parents` search (nearest ancestor first). -/
def findWrapper (i : Nat) : List Ancestor → Option Nat
  | [] => none
  | p :: ps => if oldStyle p || newStyle p then some i else findWrapper (i + 1) ps

/-- The loop body of `_parse_images` for one `img` that has a `src`:
catalog misses remove the first recognizable wrapper, else the image;
catalog hits record the url and rewrite the src from the last two path
segments (fewer than two segments makes the tuple unpacking raise
`ValueError`). -/
def parseImageOne (catalog : List String) (src : String) (ancestors : List Ancestor) :
    Except PyErr (ImgAction × List String) :=
  if !catalog.contains src then
    match findWrapper 0 ancestors with
    | some i => .ok (.removeAncestor i, [])
    | none => .ok (.removeSelf, [])
  else
    let segs := pySplitSlash src
    match segs.drop (segs.length - 2) with
    | [a, b] => .ok (.rewriteSrc ("images/" ++ a ++ "_" ++ b), [src])
    | _ => .error .other

/-! ## Specification-side formulations

The definitions below restate, independently of the loop shapes above,
what the spec claims the code computes; the theorems relate the two. -/

/-- The link value of one anchor, as the spec describes it: skip absent
hrefs, non-site-relative hrefs and the three image extensions, else the
site-prefixed and pipe-stripped url.  (An empty href, which makes the
code raise, is mapped to `none`; the theorems using this assume no empty
href.) -/
def anchorTarget : Option String → Option String
  | none => none
  | some h =>
    match h.data with
    | [] => none
    | c :: _ =>
      if c != '/' then none
      else if pyTail4 h == ".png" || pyTail4 h == ".jpg" || pyTail4 h == ".gif" then none
      else some (rstripPipe (siteRoot ++ h))

/-- All internal link targets of a page's content region, in appearance
order, duplicates included. -/
def linkCandidates (p : Page) : List String :=
  (contentAnchors p).filterMap anchorTarget

/-- Keep the first occurrence of every url not already in `seen`. -/
def dedupSeen (seen : List String) : List String → List String
  | [] => []
  | u :: us => if seen.contains u then dedupSeen seen us else u :: dedupSeen (seen ++ [u]) us

/-- The link list of a child as the backlink check reads it (empty when
the computation would raise; the theorems using this assume it does
not). -/
def linksB (c : Page) : List String :=
  match pyLinks c with
  | .ok l => l
  | .error _ => []

/-- The url the child's breadcrumb trail's last entry resolves to, when
there is one. -/
def lastCrumbUrl (c : Page) : Option String :=
  match c.raw.breadcrumbHrefs.getLast? with
  | some (some h) => some (siteRoot ++ h)
  | _ => none

/-- The spec's confirmation predicate: the hub url appears among the
candidate's outbound links, or the candidate's last breadcrumb entry
resolves to the hub url. -/
def confirmedB (hub c : Page) : Bool :=
  (linksB c).contains hub.url || lastCrumbUrl c == some hub.url

/-- The positional title assignment the tab-view pass performs in the
absence of collisions. -/
def tabAssign (bt : TabBlock × String) : TabBlock :=
  ⟨none, .titleDiv bt.2 :: bt.1.children⟩

/-- Test that a tab block's child list does not begin with a title
element: such a block can never compare equal to an already-transformed
one. -/
def headNotTitle (b : TabBlock) : Bool :=
  match b.children.head? with
  | some (.titleDiv _) => false
  | _ => true

/-! ## Concrete fixtures -/

/-- A raw record with no `#page-content` element. -/
def rawNoContent : RawPage where
  content := none
  pageTitleText := some " T "
  tags := ["tale"]
  breadcrumbHrefs := []
  discussText := none
  ratingText := none
  history := none

/-- A snapshot holding only the record without a content region. -/
def snNoContent : Snapshot where
  pages := [("http://www.scp-wiki.net/no-content", rawNoContent)]
  rewrites := []
  titlesByUrl := []
  titlesBySkip := []
  imageCatalog := []

/-- A tale page with no outbound links and no breadcrumbs. -/
def rawTale : RawPage where
  content := some ⟨"body", []⟩
  pageTitleText := some "Tale"
  tags := ["tale"]
  breadcrumbHrefs := []
  discussText := none
  ratingText := none
  history := none

/-- A hub record also tagged `scp`, linking to the tale. -/
def rawHubScp : RawPage where
  content := some ⟨"hub", [some "/a-tale"]⟩
  pageTitleText := some "Hub"
  tags := ["hub", "tale", "scp"]
  breadcrumbHrefs := []
  discussText := none
  ratingText := none
  history := none

/-- The snapshot for the hub-branch counterexample: one hub tagged
`["hub", "tale", "scp"]` linking to one unconfirmed tale. -/
def snHubScp : Snapshot where
  pages := [("http://www.scp-wiki.net/a-tale", rawTale),
            ("http://www.scp-wiki.net/the-hub", rawHubScp)]
  rewrites := []
  titlesByUrl := []
  titlesBySkip := []
  imageCatalog := []

/-- A hub record tagged only `["hub", "tale"]` with the same link, used
by the witnesses. -/
def rawHubPlain : RawPage where
  content := some ⟨"hub", [some "/a-tale"]⟩
  pageTitleText := some "Hub"
  tags := ["hub", "tale"]
  breadcrumbHrefs := []
  discussText := none
  ratingText := none
  history := none

/-- A tale whose last breadcrumb entry resolves to the hub. -/
def rawTaleCrumb : RawPage where
  content := some ⟨"body", []⟩
  pageTitleText := some "Tale"
  tags := ["tale"]
  breadcrumbHrefs := [some "/the-hub"]
  discussText := none
  ratingText := none
  history := none

/-- Witness snapshot for hub disambiguation: two tale candidates, the
second confirmed through its breadcrumb trail. -/
def snHubConfirm : Snapshot where
  pages := [("http://www.scp-wiki.net/t1", rawTale),
            ("http://www.scp-wiki.net/t2", rawTaleCrumb),
            ("http://www.scp-wiki.net/the-hub",
              ⟨some ⟨"hub", [some "/t1", some "/t2"]⟩, some "Hub", ["hub", "tale"],
                [], none, none, none⟩)]
  rewrites := []
  titlesByUrl := []
  titlesBySkip := []
  imageCatalog := []

/-- A record whose content region holds one internal anchor followed by
an anchor with an empty `href`. -/
def rawEmptyHref : RawPage where
  content := some ⟨"b", [some "/tale-one", some ""]⟩
  pageTitleText := none
  tags := []
  breadcrumbHrefs := []
  discussText := none
  ratingText := none
  history := none

/-- Snapshot holding the empty-href record. -/
def snEmptyHref : Snapshot where
  pages := [("u", rawEmptyHref)]
  rewrites := []
  titlesByUrl := []
  titlesBySkip := []
  imageCatalog := []

/-- A record exercising every branch of the link loop: a plain target,
a missing href, an external href, an image href, a duplicate with a
trailing pipe and a second plain target. -/
def rawLinkMix : RawPage where
  content := some ⟨"b", [some "/x", none, some "http://ext.com/y", some "/img.png",
                          some "/x|", some "/z"]⟩
  pageTitleText := none
  tags := []
  breadcrumbHrefs := []
  discussText := none
  ratingText := none
  history := none

/-- A page built from the link-mix record (any page value with this raw
record behaves identically for `links()`). -/
def pageLinkMix : Page :=
  ⟨"u", rawLinkMix, "", some "x", [], .i 0, none⟩

/-- A history of one revision by alice. -/
def historyAlice : List Revision := [⟨1, "alice", "2014-01-01 00:00:00", "c"⟩]

/-- A record with alice's one-revision history. -/
def rawAlice : RawPage where
  content := some ⟨"b", []⟩
  pageTitleText := none
  tags := []
  breadcrumbHrefs := []
  discussText := none
  ratingText := none
  history := some historyAlice

/-- Snapshot with no rewrite row for the page. -/
def snAuthorsPlain : Snapshot where
  pages := [("u", rawAlice)]
  rewrites := []
  titlesByUrl := []
  titlesBySkip := []
  imageCatalog := []

/-- Snapshot with a non-override rewrite row by bob. -/
def snAuthorsRewrite : Snapshot where
  pages := [("u", rawAlice)]
  rewrites := [("u", ⟨"bob", false⟩)]
  titlesByUrl := []
  titlesBySkip := []
  imageCatalog := []

/-- Snapshot with an override rewrite row by bob. -/
def snAuthorsOverride : Snapshot where
  pages := [("u", rawAlice)]
  rewrites := [("u", ⟨"bob", true⟩)]
  titlesByUrl := []
  titlesBySkip := []
  imageCatalog := []

/-- A tab block with original attributes `"z"` and body `"x"`. -/
def tabX : TabBlock := ⟨some "z", [.other "x"]⟩

/-- A tab block with original attributes `"z"` and body `"y"`. -/
def tabY : TabBlock := ⟨some "z", [.other "y"]⟩

/-- Snapshot for the chicago-spirit-hub override: the page is a hub
whose link-based resolution would return the tale. -/
def snChicago : Snapshot where
  pages := [("http://www.scp-wiki.net/chicago-spirit-hub",
              ⟨some ⟨"b", [some "/a-tale"]⟩, none, ["hub", "tale"], [], none, none, none⟩),
            ("http://www.scp-wiki.net/a-tale", rawTale)]
  rewrites := []
  titlesByUrl := []
  titlesBySkip := []
  imageCatalog := []

/-- A page at the chicago-spirit-hub url of that snapshot. -/
def pageChicago : Page :=
  ⟨"http://www.scp-wiki.net/chicago-spirit-hub",
    ⟨some ⟨"b", [some "/a-tale"]⟩, none, ["hub", "tale"], [], none, none, none⟩,
    "", some "x", [], .i 0, none⟩

/-- The page at the hub url of `snHubConfirm`. -/
def pageHubConfirm : Page :=
  ⟨"http://www.scp-wiki.net/the-hub",
    ⟨some ⟨"hub", [some "/t1", some "/t2"]⟩, some "Hub", ["hub", "tale"], [], none, none, none⟩,
    "", some "x", [], .i 0, none⟩

/-- The link list of the hub page of `snHubConfirm`. -/
def lsHubConfirm : List String :=
  match pyLinks pageHubConfirm with
  | .ok l => l
  | .error _ => []

/-- The resolved link targets of the hub page of `snHubConfirm`. -/
def lpHubConfirm : List Page :=
  match collectPages snHubConfirm lsHubConfirm with
  | .ok l => l
  | .error _ => []

/-! ## General lemmas -/

theorem beq_comm_string (a b : String) : (a == b) = (b == a) := by
  by_cases h : a = b
  · subst h; rfl
  · simp [beq_eq_false_iff_ne, h, Ne.symm h]

theorem string_eq_empty_of_data (s : String) (h : s.data = []) : s = "" := by
  cases s; simp_all

theorem contains_iff_mem (l : List String) (a : String) : l.contains a = true ↔ a ∈ l :=
  List.elem_iff

theorem contains_false_iff (l : List String) (a : String) :
    l.contains a = false ↔ a ∉ l := by
  constructor
  · intro h hm
    rw [(contains_iff_mem l a).mpr hm] at h
    cases h
  · intro h
    cases hc : l.contains a
    · rfl
    · exact absurd ((contains_iff_mem l a).mp hc) h

theorem findIdx_append_false (p : α → Bool) (l₁ l₂ : List α)
    (h : ∀ x ∈ l₁, p x = false) :
    (l₁ ++ l₂).findIdx p = l₁.length + l₂.findIdx p := by
  induction l₁ with
  | nil => simp
  | cons a l ih =>
    have ha : p a = false := h a (by simp)
    rw [List.cons_append, List.findIdx_cons, ha, cond_false,
      ih fun x hx => h x (by simp [hx])]
    simp [Nat.succ_add]

theorem findIdx_concat_self [BEq α] [LawfulBEq α] (l₁ l₂ : List α) (a : α) :
    (l₁ ++ a :: l₂).findIdx (fun x => x == a) ≤ l₁.length := by
  induction l₁ with
  | nil => simp [List.findIdx_cons]
  | cons b bs ih =>
    rw [List.cons_append, List.findIdx_cons]
    cases b == a
    · rw [cond_false]
      exact Nat.succ_le_succ ih
    · rw [cond_true]
      exact Nat.zero_le _

/-! ## Lemmas about the effectful list loops -/

theorem anyME_congr (f : α → Except PyErr Bool) (g : α → Bool) (l : List α)
    (h : ∀ x ∈ l, f x = .ok (g x)) : anyME f l = .ok (l.any g) := by
  induction l with
  | nil => simp [anyME]
  | cons x xs ih =>
    have hx := h x (by simp)
    rw [anyME, hx]
    cases hgx : g x
    · rw [ih fun y hy => h y (by simp [hy])]
      simp [hgx]
    · simp [hgx]

theorem filterME_congr (f : α → Except PyErr Bool) (g : α → Bool) (l : List α)
    (h : ∀ x ∈ l, f x = .ok (g x)) : filterME f l = .ok (l.filter g) := by
  induction l with
  | nil => simp [filterME]
  | cons x xs ih =>
    have hx := h x (by simp)
    rw [filterME, hx, ih fun y hy => h y (by simp [hy])]
    cases hgx : g x <;> simp [List.filter_cons, hgx]

theorem mapME_ok_map (f : α → Except PyErr β) (g : β → γ) (h : α → γ)
    (l : List α) (cs : List β)
    (hok : mapME f l = .ok cs) (hfg : ∀ x y, f x = .ok y → g y = h x) :
    cs.map g = l.map h := by
  induction l generalizing cs with
  | nil =>
    rw [mapME] at hok
    cases hok
    simp
  | cons x xs ih =>
    rw [mapME] at hok
    cases hfx : f x with
    | error e => rw [hfx] at hok; cases hok
    | ok y =>
      rw [hfx] at hok
      cases hrest : mapME f xs with
      | error e => rw [hrest] at hok; cases hok
      | ok ys =>
        rw [hrest] at hok
        cases hok
        simp [hfg x y hfx, ih ys hrest]

/-! ## Lemmas about link deduplication -/

theorem mem_dedupSeen (l : List String) (u : String) : ∀ seen,
    (u ∈ dedupSeen seen l ↔ u ∈ l ∧ seen.contains u = false) := by
  induction l with
  | nil => intro seen; simp [dedupSeen]
  | cons v vs ih =>
    intro seen
    by_cases hv : seen.contains v = true
    · rw [dedupSeen, if_pos hv, ih]
      constructor
      · rintro ⟨h1, h2⟩
        exact ⟨List.mem_cons_of_mem _ h1, h2⟩
      · rintro ⟨h1, h2⟩
        rcases List.mem_cons.mp h1 with rfl | h1
        · rw [hv] at h2; cases h2
        · exact ⟨h1, h2⟩
    · have hv' : seen.contains v = false := by
        cases hc : seen.contains v
        · rfl
        · exact absurd hc hv
      rw [dedupSeen, if_neg hv]
      constructor
      · intro hm
        rcases List.mem_cons.mp hm with rfl | hm
        · exact ⟨List.mem_cons_self u vs, hv'⟩
        · rcases (ih _).mp hm with ⟨h1, h2⟩
          refine ⟨List.mem_cons_of_mem _ h1, ?_⟩
          rw [contains_false_iff] at h2 ⊢
          intro hu
          exact h2 (by simp [hu])
      · rintro ⟨h1, h2⟩
        by_cases huv : u = v
        · subst huv; exact List.mem_cons_self u _
        · rcases List.mem_cons.mp h1 with rfl | h1
          · exact absurd rfl huv
          · refine List.mem_cons_of_mem _ ((ih _).mpr ⟨h1, ?_⟩)
            rw [contains_false_iff] at h2 ⊢
            intro hu
            rcases List.mem_append.mp hu with hu | hu
            · exact h2 hu
            · exact huv (List.mem_singleton.mp hu)

theorem nodup_dedupSeen (l : List String) : ∀ seen, (dedupSeen seen l).Nodup := by
  induction l with
  | nil => intro seen; simp [dedupSeen]
  | cons v vs ih =>
    intro seen
    by_cases hv : seen.contains v = true
    · rw [dedupSeen, if_pos hv]; exact ih _
    · rw [dedupSeen, if_neg hv]
      rw [List.nodup_cons]
      refine ⟨?_, ih _⟩
      intro hm
      rcases (mem_dedupSeen _ _ _).mp hm with ⟨_, h2⟩
      rw [contains_false_iff] at h2
      exact h2 (by simp)

theorem dedupSeen_sublist (l : List String) : ∀ seen, (dedupSeen seen l).Sublist l := by
  induction l with
  | nil => intro seen; simp [dedupSeen]
  | cons v vs ih =>
    intro seen
    by_cases hv : seen.contains v = true
    · rw [dedupSeen, if_pos hv]
      exact (ih _).trans (List.sublist_cons_self v vs)
    · rw [dedupSeen, if_neg hv]
      exact (ih _).cons₂ v

/-- The link loop is the dedup-keep-first of the per-anchor targets, as
long as no anchor carries an empty href. -/
theorem linksLoop_eq (ans : List (Option String)) (h : ∀ a ∈ ans, a ≠ some "") :
    ∀ acc, linksLoop acc ans = .ok (acc ++ dedupSeen acc (ans.filterMap anchorTarget)) := by
  induction ans with
  | nil => intro acc; simp [linksLoop, dedupSeen]
  | cons a rest ih =>
    intro acc
    have hrest : ∀ x ∈ rest, x ≠ some "" := fun x hx => h x (by simp [hx])
    match a with
    | none =>
      rw [List.filterMap_cons_none (by rw [anchorTarget])]
      exact ih hrest acc
    | some s =>
      have hs : s ≠ "" := by
        intro hs
        exact h (some s) (by simp) (by rw [hs])
      rcases hd : s.data with _ | ⟨c, cs⟩
      · exact absurd (string_eq_empty_of_data s hd) hs
      · by_cases hslash : (c != '/') = true
        · have ha : anchorTarget (some s) = none := by
            rw [anchorTarget.eq_def]
            simp only [hd]
            rw [if_pos hslash]
          have hl : linksLoop acc (some s :: rest) = linksLoop acc rest := by
            simp only [linksLoop, hd]
            rw [if_pos hslash]
          rw [hl, List.filterMap_cons_none ha]
          exact ih hrest acc
        · by_cases himg :
              (pyTail4 s == ".png" || pyTail4 s == ".jpg" || pyTail4 s == ".gif") = true
          · have ha : anchorTarget (some s) = none := by
              rw [anchorTarget.eq_def]
              simp only [hd]
              rw [if_neg hslash, if_pos himg]
            have hl : linksLoop acc (some s :: rest) = linksLoop acc rest := by
              simp only [linksLoop, hd]
              rw [if_neg hslash, if_pos himg]
            rw [hl, List.filterMap_cons_none ha]
            exact ih hrest acc
          · have ha : anchorTarget (some s) = some (rstripPipe (siteRoot ++ s)) := by
              rw [anchorTarget.eq_def]
              simp only [hd]
              rw [if_neg hslash, if_neg himg]
            rw [List.filterMap_cons_some ha]
            by_cases hmem : acc.contains (rstripPipe (siteRoot ++ s)) = true
            · have hl : linksLoop acc (some s :: rest) = linksLoop acc rest := by
                simp only [linksLoop, hd]
                rw [if_neg hslash, if_neg himg, if_pos hmem]
              rw [hl, dedupSeen, if_pos hmem]
              exact ih hrest acc
            · have hl : linksLoop acc (some s :: rest)
                  = linksLoop (acc ++ [rstripPipe (siteRoot ++ s)]) rest := by
                simp only [linksLoop, hd]
                rw [if_neg hslash, if_neg himg, if_neg hmem]
              rw [hl, dedupSeen, if_neg hmem, ih hrest (acc ++ [rstripPipe (siteRoot ++ s)])]
              simp

/-- When the backlink computation raises no exception it computes the
spec-side confirmation predicate. -/
theorem backlinksE_isOk_eq (hub c : Page) (h : (backlinksE hub c).isOk = true) :
    backlinksE hub c = .ok (confirmedB hub c) := by
  cases hpl : pyLinks c with
  | error e =>
    rw [backlinksE, hpl] at h
    cases h
  | ok cl =>
    simp only [backlinksE, hpl] at h ⊢
    have hlb : linksB c = cl := by rw [linksB, hpl]
    by_cases hcont : cl.contains hub.url = true
    · rw [if_pos hcont, confirmedB, hlb, hcont]
      rfl
    · rw [if_neg hcont] at h ⊢
      have hcont' : cl.contains hub.url = false := by
        cases hc : cl.contains hub.url
        · rfl
        · exact absurd hc hcont
      cases hlast : c.raw.breadcrumbHrefs.getLast? with
      | none =>
        simp only [hlast]
        rw [confirmedB, hlb, hcont', lastCrumbUrl, hlast]
        rfl
      | some o =>
        cases o with
        | none =>
          simp only [hlast] at h
          cases h
        | some s =>
          simp only [hlast]
          rw [confirmedB, hlb, hcont', lastCrumbUrl, hlast]
          simp only [Bool.false_or]
          rw [show ((some (siteRoot ++ s) == some hub.url) : Bool)
              = (siteRoot ++ s == hub.url) from rfl]
          rw [beq_comm_string]

/-! ## Lemmas about the tab-view loop -/

/-- As long as enough titles exist for the positions still to process,
the loop cannot raise: the index it looks up never exceeds the position
of the block being processed. -/
theorem tabLoop_isOk (titles : List String) (todo : List TabBlock) : ∀ done : List TabBlock,
    done.length + todo.length ≤ titles.length →
    (tabLoop titles done todo).isOk = true := by
  induction todo with
  | nil => intro done _; rfl
  | cons k rest ih =>
    intro done hlen
    rw [tabLoop]
    have hidx : pyIndex (done ++ (⟨none, k.children⟩ : TabBlock) :: rest)
        (⟨none, k.children⟩ : TabBlock) ≤ done.length := by
      rw [pyIndex]
      exact findIdx_concat_self done rest _
    have hlt : pyIndex (done ++ (⟨none, k.children⟩ : TabBlock) :: rest)
        (⟨none, k.children⟩ : TabBlock) < titles.length := by
      have : done.length < titles.length := by
        simp only [List.length_cons] at hlen
        omega
      omega
    cases hget : titles.get? (pyIndex (done ++ (⟨none, k.children⟩ : TabBlock) :: rest)
        (⟨none, k.children⟩ : TabBlock)) with
    | none =>
      rw [List.get?_eq_none] at hget
      omega
    | some t =>
      apply ih
      simp only [List.length_append, List.length_cons, List.length_nil] at hlen ⊢
      omega

/-- A transformed block (title element in front) never compares equal to
a freshly re-attributed raw block whose children do not start with a
title element. -/
theorem done_ne_fresh (d : TabBlock) (k : TabBlock) (s : String) (tl : List TabNode)
    (hd : d.children = .titleDiv s :: tl) (hk : headNotTitle k = true) :
    (d == (⟨none, k.children⟩ : TabBlock)) = false := by
  apply beq_eq_false_iff_ne.mpr
  intro he
  have hck : k.children = TabNode.titleDiv s :: tl := by
    have hdk : d.children = k.children := by rw [he]
    rw [← hdk, hd]
  simp only [headNotTitle, hck, List.head?_cons] at hk
  cases hk

/-- On clean input (no block's children begin with a title element) and
with enough titles, the loop assigns titles purely positionally. -/
theorem tabLoop_clean_ok (titles : List String) (todo : List TabBlock) :
    ∀ done : List TabBlock,
    (∀ d ∈ done, ∃ s tl, d.children = TabNode.titleDiv s :: tl) →
    (∀ b ∈ todo, headNotTitle b = true) →
    done.length + todo.length ≤ titles.length →
    tabLoop titles done todo
      = .ok (done ++ (todo.zip (titles.drop done.length)).map tabAssign) := by
  induction todo with
  | nil => intro done _ _ _; simp [tabLoop]
  | cons k rest ih =>
    intro done hdone htodo hlen
    have hk : headNotTitle k = true := htodo k (by simp)
    have hidx : pyIndex (done ++ (⟨none, k.children⟩ : TabBlock) :: rest)
        (⟨none, k.children⟩ : TabBlock) = done.length := by
      rw [pyIndex, findIdx_append_false _ _ _ fun d hd => by
        rcases hdone d hd with ⟨s, tl, hdc⟩
        exact done_ne_fresh d k s tl hdc hk]
      rw [List.findIdx_cons, beq_self_eq_true, cond_true]
      omega
    have hdl : done.length < titles.length := by
      simp only [List.length_cons] at hlen
      omega
    rw [tabLoop, hidx]
    cases hget : titles.get? done.length with
    | none =>
      rw [List.get?_eq_none] at hget
      omega
    | some t =>
      have ht : titles[done.length] = t := by
        rw [List.get?_eq_getElem?, List.getElem?_eq_getElem hdl] at hget
        exact Option.some_injective _ hget
      show tabLoop titles (done ++ [⟨none, .titleDiv t :: k.children⟩]) rest = _
      have hstep := ih (done ++ [(⟨none, .titleDiv t :: k.children⟩ : TabBlock)])
        (fun d hd => by
          rcases List.mem_append.mp hd with hd | hd
          · exact hdone d hd
          · rw [List.mem_singleton.mp hd]
            exact ⟨t, k.children, rfl⟩)
        (fun b hb => htodo b (by simp [hb]))
        (by simp only [List.length_append, List.length_cons, List.length_nil] at hlen ⊢
            omega)
      rw [hstep, List.drop_eq_getElem_cons hdl, ht]
      simp [tabAssign, List.append_assoc]

/-- On clean input with too few titles, the loop raises the index
error. -/
theorem tabLoop_clean_err (titles : List String) (todo : List TabBlock) :
    ∀ done : List TabBlock,
    (∀ d ∈ done, ∃ s tl, d.children = TabNode.titleDiv s :: tl) →
    (∀ b ∈ todo, headNotTitle b = true) →
    done.length ≤ titles.length →
    titles.length < done.length + todo.length →
    tabLoop titles done todo = .error .other := by
  induction todo with
  | nil =>
    intro done _ _ h1 h2
    simp only [List.length_nil] at h2
    omega
  | cons k rest ih =>
    intro done hdone htodo h1 h2
    have hk : headNotTitle k = true := htodo k (by simp)
    have hidx : pyIndex (done ++ (⟨none, k.children⟩ : TabBlock) :: rest)
        (⟨none, k.children⟩ : TabBlock) = done.length := by
      rw [pyIndex, findIdx_append_false _ _ _ fun d hd => by
        rcases hdone d hd with ⟨s, tl, hdc⟩
        exact done_ne_fresh d k s tl hdc hk]
      rw [List.findIdx_cons, beq_self_eq_true, cond_true]
      omega
    rcases Nat.lt_or_ge done.length titles.length with hdl | hdl
    · rw [tabLoop, hidx]
      cases hget : titles.get? done.length with
      | none =>
        rfl
      | some t =>
        show tabLoop titles (done ++ [⟨none, .titleDiv t :: k.children⟩]) rest = _
        exact ih (done ++ [(⟨none, .titleDiv t :: k.children⟩ : TabBlock)])
          (fun d hd => by
            rcases List.mem_append.mp hd with hd | hd
            · exact hdone d hd
            · rw [List.mem_singleton.mp hd]
              exact ⟨t, k.children, rfl⟩)
          (fun b hb => htodo b (by simp [hb]))
          (by simp only [List.length_append, List.length_cons, List.length_nil]
              omega)
          (by simp only [List.length_append, List.length_cons, List.length_nil] at h2 ⊢
              omega)
    · have hnone : titles.get? done.length = none := by
        rw [List.get?_eq_none]
        omega
      rw [tabLoop, hidx, hnone]

/-! ## Lemmas about the image wrapper search -/

/-- The wrapper search returns nothing when no ancestor is
recognizable. -/
theorem findWrapper_none (l : List Ancestor)
    (h : ∀ q ∈ l, (oldStyle q || newStyle q) = false) :
    ∀ i, findWrapper i l = none := by
  induction l with
  | nil => intro i; rfl
  | cons p ps ih =>
    intro i
    rw [findWrapper, h p (by simp)]
    exact ih (fun q hq => h q (by simp [hq])) (i + 1)

/-- The wrapper search returns the position of the first recognizable
ancestor. -/
theorem findWrapper_first (pre : List Ancestor) (w : Ancestor) (suf : List Ancestor)
    (hpre : ∀ q ∈ pre, (oldStyle q || newStyle q) = false)
    (hw : (oldStyle w || newStyle w) = true) :
    ∀ i, findWrapper i (pre ++ w :: suf) = some (i + pre.length) := by
  induction pre with
  | nil =>
    intro i
    rw [List.nil_append, findWrapper, hw]
    simp
  | cons p ps ih =>
    intro i
    rw [List.cons_append, findWrapper, hpre p (by simp)]
    rw [ih (fun q hq => hpre q (by simp [hq])) (i + 1)]
    simp only [List.length_cons]
    have harith : i + 1 + ps.length = i + (ps.length + 1) := by omega
    rw [harith]
    simp

/-! ## Lemmas about comment parsing -/

/-- The digit search is the drop-to-first-digit, take-digits
computation. -/
theorem reSearchDigits_spec (cs : List Char) :
    reSearchDigits cs =
      (if (cs.dropWhile fun c => !c.isDigit).isEmpty then none
       else some ((cs.dropWhile fun c => !c.isDigit).takeWhile Char.isDigit)) := by
  induction cs with
  | nil => rfl
  | cons c cs ih =>
    by_cases hc : c.isDigit = true
    · rw [reSearchDigits, if_pos hc, List.dropWhile_cons]
      rw [show (!c.isDigit) = false by rw [hc]; rfl]
      simp only [Bool.false_eq_true, if_false, List.isEmpty_cons]
      rw [List.takeWhile_cons, hc]
      simp
    · have hc' : c.isDigit = false := by
        cases h : c.isDigit
        · rfl
        · exact absurd h hc
      rw [reSearchDigits, if_neg hc, List.dropWhile_cons]
      rw [show (!c.isDigit) = true by rw [hc']; rfl]
      simp only [if_true]
      exact ih

/-! ## Lemmas about page construction -/

/-- A successfully constructed page carries the url it was requested
for. -/
theorem mkPage_url (sn : Snapshot) (url : String) (p : Page)
    (h : mkPage sn url = .ok p) : p.url = url := by
  cases hlk : sn.pages.lookup url with
  | none =>
    simp only [mkPage, hlk] at h
    cases h
  | some raw =>
    simp only [mkPage, hlk] at h
    cases hct : computeTitle sn url raw with
    | error e =>
      simp only [hct] at h
      cases h
    | ok title =>
      simp only [hct] at h
      cases hh : raw.history with
      | none =>
        simp only [hh] at h
        cases h
        rfl
      | some revs =>
        simp only [hh] at h
        cases revs with
        | nil => cases h
        | cons r rs =>
          cases h
          rfl

/-- The page the plain-authors snapshot constructs. -/
def pageAlicePlain : Page :=
  match mkPage snAuthorsPlain "u" with
  | .ok p => p
  | .error _ => pageLinkMix

/-- The page the rewrite-authors snapshot constructs. -/
def pageAliceRewrite : Page :=
  match mkPage snAuthorsRewrite "u" with
  | .ok p => p
  | .error _ => pageLinkMix

/-- The page the override-authors snapshot constructs. -/
def pageAliceOverride : Page :=
  match mkPage snAuthorsOverride "u" with
  | .ok p => p
  | .error _ => pageLinkMix

/-! ## Claim theorems -/

/-- **C1** (code bug).  The claim says content is absent exactly when the
raw markup has no content region and that the title paragraph is
prepended *only when content existed*.  The code violates this:
`_parse_body` does leave `data = None` for a record without a
`#page-content` element, but the final line of `_parse_html` then runs
`title_insert.format(self.title, self.data)` unconditionally, and
Python's `format` renders `None` as the string `"None"` — the
constructed page ends with the fabricated content string
`"<p class=...>T</p>None"` instead of absent content.  This theorem
evaluates the model at the failing input. -/
theorem c1_missing_content_formats_none_string :
    rawNoContent.content = none
    ∧ (mkPage snNoContent "http://www.scp-wiki.net/no-content").map Page.data
        = .ok (some "<p class=\x27tale-title\x27>T</p>None") := by
  decide

/-- **C2** (counterexample).  A page tagged `["hub", "tale", "scp"]`
linking to one tag-matched, unconfirmed tale candidate: the claim
demands `children()` return all tag-matched candidates (the fallback),
but the `scp`/`splash` branch of the method fires first and returns `[]`
because the tale is not tagged supplement/splash. -/
theorem c2_hub_children_counterexample :
    ((mkPage snHubScp "http://www.scp-wiki.net/the-hub").map fun p =>
        (p.tags, childrenMethod snHubScp p,
          (pyLinks p).bind fun ls =>
            (collectPages snHubScp ls).map fun lp => (hubCandidates lp).map Page.url))
      = .ok (["hub", "tale", "scp"], .ok [], .ok ["http://www.scp-wiki.net/a-tale"]) := by
  decide

/-- **C2** (amended).  For a page tagged hub and tale/goi2014 *and not
tagged scp or splash*, when link collection, resolution and every
backlink check raise no exception, `children()` returns exactly the
confirmed candidates in original order when at least one candidate is
confirmed and all tag-matched candidates otherwise, where a candidate is
confirmed iff the hub url is among its outbound links or its last
breadcrumb entry resolves to the hub url (`confirmedB`). -/
theorem c2_hub_children_disambiguation (sn : Snapshot) (p : Page) (ls : List String)
    (lp : List Page)
    (hhub : p.tags.contains "hub" = true)
    (htg : tagAny ["tale", "goi2014"] p.tags = true)
    (hscp : p.tags.contains "scp" = false)
    (hspl : p.tags.contains "splash" = false)
    (hl : pyLinks p = .ok ls)
    (hc : collectPages sn ls = .ok lp)
    (hb : ∀ c ∈ hubCandidates lp, (backlinksE p c).isOk = true) :
    childrenMethod sn p =
      .ok (if (hubCandidates lp).any (confirmedB p) = true
           then (hubCandidates lp).filter (confirmedB p)
           else hubCandidates lp) := by
  have h1 : tagAny ["scp", "hub", "goi2014", "splash"] p.tags = true := by
    simp only [tagAny, List.any_cons, List.any_nil, hhub, Bool.true_or, Bool.or_true]
  have h2 : tagAny ["scp", "splash"] p.tags = false := by
    simp only [tagAny, List.any_cons, List.any_nil, hscp, hspl, Bool.or_false,
      Bool.false_or]
  have h3 : (p.tags.contains "hub" && tagAny ["tale", "goi2014"] p.tags) = true := by
    rw [hhub, htg]
    rfl
  have hback : ∀ c ∈ hubCandidates lp, backlinksE p c = .ok (confirmedB p c) :=
    fun c hcm => backlinksE_isOk_eq p c (hb c hcm)
  rw [childrenMethod, h1]
  simp only [Bool.not_true, Bool.false_eq_true, if_false, hl, hc, h2, h3, if_true]
  rw [anyME_congr (backlinksE p) (confirmedB p) (hubCandidates lp) hback]
  cases hany : (hubCandidates lp).any (confirmedB p)
  · rfl
  · show filterME (backlinksE p) (hubCandidates lp)
      = .ok ((hubCandidates lp).filter (confirmedB p))
    exact filterME_congr (backlinksE p) (confirmedB p) (hubCandidates lp) hback

/-- Witness for the amended C2 theorem at a concrete snapshot with one
confirmed and one unconfirmed candidate. -/
theorem c2_hub_children_disambiguation_witness :
    childrenMethod snHubConfirm pageHubConfirm =
      .ok (if (hubCandidates lpHubConfirm).any (confirmedB pageHubConfirm) = true
           then (hubCandidates lpHubConfirm).filter (confirmedB pageHubConfirm)
           else hubCandidates lpHubConfirm) :=
  c2_hub_children_disambiguation snHubConfirm pageHubConfirm lsHubConfirm lpHubConfirm
    (by decide) (by decide) (by decide) (by decide) (by decide) (by decide) (by decide)

/-- **C3** (counterexample).  Three titles with two (distinct) content
blocks do *not* raise: the loop succeeds and silently ignores the third
title.  (The code also has no `MalformedContentError` type at all; the
only error a count mismatch can raise is the `IndexError` from
`titles[tabs.index(k)]`.) -/
theorem c3_tab_mismatch_counterexample :
    parseTabview ["t1", "t2", "t3"] [tabX, tabY]
      = .ok [⟨none, [.titleDiv "t1", .other "x"]⟩, ⟨none, [.titleDiv "t2", .other "y"]⟩] := by
  decide

/-- **C3** (amended).  A tab view with at least as many titles as
content blocks never raises (surplus titles are silently ignored); an
index error is raised when there are more content blocks than titles,
provided no block's children begin with a pre-existing title element
(which could make the index-of search hit an earlier position). -/
theorem c3_tab_mismatch_behavior (titles : List String) (tabs : List TabBlock) :
    (tabs.length ≤ titles.length → (parseTabview titles tabs).isOk = true)
    ∧ ((∀ b ∈ tabs, headNotTitle b = true) → titles.length < tabs.length →
        parseTabview titles tabs = .error .other) := by
  constructor
  · intro hlen
    rw [parseTabview]
    exact tabLoop_isOk titles tabs [] (by simpa using hlen)
  · intro hclean hlen
    rw [parseTabview]
    exact tabLoop_clean_err titles tabs []
      (fun d hd => absurd hd (List.not_mem_nil d)) hclean
      (by simp) (by simpa using hlen)

/-- Witness for the amended C3 theorem: surplus titles succeed, surplus
blocks raise. -/
theorem c3_tab_mismatch_behavior_witness :
    (parseTabview ["t1", "t2", "t3"] [tabX, tabY]).isOk = true
    ∧ parseTabview ["t1"] [tabX, tabY] = .error .other :=
  ⟨(c3_tab_mismatch_behavior ["t1", "t2", "t3"] [tabX, tabY]).1 (by decide),
   (c3_tab_mismatch_behavior ["t1"] [tabX, tabY]).2 (by decide) (by decide)⟩

/-- **C4** (confirmed).  For a page with non-empty history whose
earliest revision's user is `r.user`: no rewrite row gives
`[(r.user, original)]`; a non-override row by `y` appends
`(y, rewrite)`; an override row by `y` replaces the list with
`[(y, original)]`. -/
theorem c4_authors_from_history_and_rewrite (sn : Snapshot) (url : String) (p : Page)
    (r : Revision) (rs : List Revision)
    (hp : mkPage sn url = .ok p)
    (hh : (sn.pages.lookup url).bind RawPage.history = some (r :: rs)) :
    (sn.rewrites.lookup url = none → p.authors = [⟨r.user, "original"⟩])
    ∧ (∀ y : String, sn.rewrites.lookup url = some ⟨y, false⟩ →
        p.authors = [⟨r.user, "original"⟩, ⟨y, "rewrite"⟩])
    ∧ (∀ y : String, sn.rewrites.lookup url = some ⟨y, true⟩ →
        p.authors = [⟨y, "original"⟩]) := by
  cases hlk : sn.pages.lookup url with
  | none => rw [hlk] at hh; cases hh
  | some raw =>
    rw [hlk] at hh
    have hh' : raw.history = some (r :: rs) := hh
    cases hct : computeTitle sn url raw with
    | error e =>
      simp only [mkPage, hlk, hct] at hp
      cases hp
    | ok title =>
      simp only [mkPage, hlk, hct, hh'] at hp
      cases hp
      refine ⟨?_, ?_, ?_⟩
      · intro hrw
        simp [metaAuthors, hrw]
      · intro y hrw
        simp [metaAuthors, hrw]
      · intro y hrw
        simp [metaAuthors, hrw]

/-- Witness for C4 at the three one-revision snapshots. -/
theorem c4_authors_witness :
    pageAlicePlain.authors = [⟨"alice", "original"⟩]
    ∧ pageAliceRewrite.authors = [⟨"alice", "original"⟩, ⟨"bob", "rewrite"⟩]
    ∧ pageAliceOverride.authors = [⟨"bob", "original"⟩] :=
  ⟨(c4_authors_from_history_and_rewrite snAuthorsPlain "u" pageAlicePlain
      ⟨1, "alice", "2014-01-01 00:00:00", "c"⟩ [] (by decide) (by decide)).1 (by decide),
   (c4_authors_from_history_and_rewrite snAuthorsRewrite "u" pageAliceRewrite
      ⟨1, "alice", "2014-01-01 00:00:00", "c"⟩ [] (by decide) (by decide)).2.1 "bob" (by decide),
   (c4_authors_from_history_and_rewrite snAuthorsOverride "u" pageAliceOverride
      ⟨1, "alice", "2014-01-01 00:00:00", "c"⟩ [] (by decide) (by decide)).2.2 "bob" (by decide)⟩

/-- **C5** (confirmed).  A catalog-present image src with at least two
path segments is rewritten to `images/{parent}_{leaf}` from its last
two segments and recorded; a catalog-absent src yields a removal — of
the first recognizable ancestor wrapper when one exists, of the image
itself otherwise — and is never left in place. -/
theorem c5_image_resolution (catalog : List String) (src : String)
    (ancestors : List Ancestor) :
    (∀ pre a b, catalog.contains src = true → pySplitSlash src = pre ++ [a, b] →
      parseImageOne catalog src ancestors
        = .ok (.rewriteSrc ("images/" ++ a ++ "_" ++ b), [src]))
    ∧ (catalog.contains src = false →
       (∀ q ∈ ancestors, (oldStyle q || newStyle q) = false) →
       parseImageOne catalog src ancestors = .ok (.removeSelf, []))
    ∧ (∀ pre w suf, catalog.contains src = false →
       ancestors = pre ++ w :: suf →
       (∀ q ∈ pre, (oldStyle q || newStyle q) = false) →
       (oldStyle w || newStyle w) = true →
       parseImageOne catalog src ancestors = .ok (.removeAncestor pre.length, [])) := by
  refine ⟨?_, ?_, ?_⟩
  · intro pre a b hcat hsplit
    have hlen2 : (pre ++ [a, b]).length - 2 = pre.length := by
      simp [List.length_append]
    have hdrop : (pre ++ [a, b]).drop ((pre ++ [a, b]).length - 2) = [a, b] := by
      rw [hlen2]
      exact List.drop_left pre [a, b]
    simp only [parseImageOne, hcat, Bool.not_true, Bool.false_eq_true, if_false,
      hsplit, hdrop]
  · intro hcat hall
    simp only [parseImageOne, hcat, Bool.not_false, if_true,
      findWrapper_none ancestors hall 0]
  · intro pre w suf hcat hanc hpre hw
    subst hanc
    simp only [parseImageOne, hcat, Bool.not_false, if_true,
      findWrapper_first pre w suf hpre hw 0, Nat.zero_add]

/-- Witness for C5: a catalog hit is rewritten and recorded; a miss with
no recognizable wrapper removes the image; a miss whose second ancestor
is a new-style wrapper removes that ancestor. -/
theorem c5_image_resolution_witness :
    parseImageOne ["http://x.com/a/b.png"] "http://x.com/a/b.png" []
      = .ok (.rewriteSrc "images/a_b.png", ["http://x.com/a/b.png"])
    ∧ parseImageOne [] "http://x.com/a/b.png" [⟨false, 0, none⟩]
      = .ok (.removeSelf, [])
    ∧ parseImageOne [] "http://x.com/a/b.png"
        [⟨false, 0, none⟩, ⟨false, 0, some ["scp-image-block"]⟩]
      = .ok (.removeAncestor 1, []) :=
  ⟨(c5_image_resolution ["http://x.com/a/b.png"] "http://x.com/a/b.png" []).1
      ["http:", "", "x.com"] "a" "b.png" (by decide) (by decide),
   (c5_image_resolution [] "http://x.com/a/b.png" [⟨false, 0, none⟩]).2.1
      (by decide) (by decide),
   (c5_image_resolution [] "http://x.com/a/b.png"
        [⟨false, 0, none⟩, ⟨false, 0, some ["scp-image-block"]⟩]).2.2
      [⟨false, 0, none⟩] ⟨false, 0, some ["scp-image-block"]⟩ []
      (by decide) (by decide) (by decide) (by decide)⟩

/-- **C6** (confirmed).  A url matching one of the four `ov_children`
entries gets the overridden children: the numeric-suffix range for
scp-2998 (shown at the level of the constructed urls), normal resolution
minus one excluded exact url for the two `_except` hubs, and the empty
list for chicago-spirit-hub — the last unconditionally, whatever
link-based resolution would return. -/
theorem c6_children_override_precedence (sn : Snapshot) (p : Page) (cs ps : List Page) :
    (p.url = siteBase ++ "scp-2998" → pageChildren sn p = .ok ps →
      ps.map Page.url = (List.range' 2 9).map fun n => p.url ++ "-" ++ toString n)
    ∧ (p.url = siteBase ++ "wills-and-ways-hub" → childrenMethod sn p = .ok cs →
      pageChildren sn p
        = .ok (cs.filter fun c => c.url != siteBase ++ "marshall-carter-and-dark-hub"))
    ∧ (p.url = siteBase ++ "serpent-s-hand-hub" → childrenMethod sn p = .ok cs →
      pageChildren sn p = .ok (cs.filter fun c => c.url != siteBase ++ "black-queen-hub"))
    ∧ (p.url = siteBase ++ "chicago-spirit-hub" → pageChildren sn p = .ok []) := by
  refine ⟨?_, ?_, ?_, ?_⟩
  · intro hu hps
    have hov : findOverride p.url = some (.inrange 2 11) := by
      rw [hu]
      decide
    simp only [pageChildren, hov, runStrategy] at hps
    have := mapME_ok_map (fun n => mkPage sn (p.url ++ "-" ++ toString n)) Page.url
      (fun n => p.url ++ "-" ++ toString n) (List.range' 2 (11 - 2)) ps hps
      (fun n q hq => mkPage_url sn (p.url ++ "-" ++ toString n) q hq)
    simpa using this
  · intro hu hcm
    have hov : findOverride p.url = some (.exceptUrl "marshall-carter-and-dark-hub") := by
      rw [hu]
      decide
    simp only [pageChildren, hov, runStrategy, hcm]
  · intro hu hcm
    have hov : findOverride p.url = some (.exceptUrl "black-queen-hub") := by
      rw [hu]
      decide
    simp only [pageChildren, hov, runStrategy, hcm]
  · intro hu
    have hov : findOverride p.url = some .emptyList := by
      rw [hu]
      decide
    simp only [pageChildren, hov, runStrategy]

/-- Witness for C6: the chicago-spirit-hub page of a snapshot where
link-based resolution would return a tale nevertheless has empty
children. -/
theorem c6_children_override_witness :
    pageChildren snChicago pageChicago = .ok []
    ∧ childrenMethod snChicago pageChicago ≠ .ok [] :=
  ⟨(c6_children_override_precedence snChicago pageChicago [] []).2.2.2 (by decide),
   by decide⟩

/-- **C7** (confirmed).  A page whose tag set shares no member with
`{scp, hub, goi2014, splash}` has empty children from the resolution
method. -/
theorem c7_disjoint_tags_children_empty (sn : Snapshot) (p : Page)
    (h : ∀ t ∈ p.tags, t ∉ (["scp", "hub", "goi2014", "splash"] : List String)) :
    childrenMethod sn p = .ok [] := by
  have hta : tagAny ["scp", "hub", "goi2014", "splash"] p.tags = false := by
    rw [tagAny]
    apply List.any_eq_false.mpr
    intro k hk hcont
    exact h k ((contains_iff_mem _ _).mp hcont) hk
  simp [childrenMethod, hta]

/-- Witness for C7 at a page with no tags at all. -/
theorem c7_disjoint_tags_children_empty_witness :
    childrenMethod snAuthorsPlain pageLinkMix = .ok [] :=
  c7_disjoint_tags_children_empty snAuthorsPlain pageLinkMix (by decide)

/-- **C8** (counterexample).  A content region holding an internal
anchor followed by an anchor with an *empty* href makes `links()` raise
(`a["href"][0]` is an `IndexError` on the empty string), so it does not
return the internal targets at all. -/
theorem c8_links_empty_href_counterexample :
    (mkPage snEmptyHref "u").map (fun p => (contentAnchors p, pyLinks p))
      = .ok ([some "/tale-one", some ""], .error .other) := by
  decide

/-- **C8** (amended).  When no anchor of the content region has an empty
href, `links()` returns exactly the site-prefixed, pipe-stripped targets
of the site-relative, non-image anchors, deduplicated keeping first
occurrences: the result is duplicate-free, a subsequence of the
candidate list (first-appearance order), and contains exactly the
candidate urls. -/
theorem c8_links_characterization (p : Page)
    (h : ∀ a ∈ contentAnchors p, a ≠ some "") :
    pyLinks p = .ok (dedupSeen [] (linkCandidates p))
    ∧ (dedupSeen [] (linkCandidates p)).Nodup
    ∧ (dedupSeen [] (linkCandidates p)).Sublist (linkCandidates p)
    ∧ ∀ u, u ∈ dedupSeen [] (linkCandidates p) ↔ u ∈ linkCandidates p := by
  refine ⟨?_, nodup_dedupSeen _ _, dedupSeen_sublist _ _, ?_⟩
  · rw [pyLinks, linksLoop_eq (contentAnchors p) h [], linkCandidates]
    rw [List.nil_append]
  · intro u
    rw [mem_dedupSeen]
    simp [List.contains]

/-- Witness for the amended C8 theorem on the mixed-anchor fixture. -/
theorem c8_links_characterization_witness :
    pyLinks pageLinkMix = .ok (dedupSeen [] (linkCandidates pageLinkMix))
    ∧ dedupSeen [] (linkCandidates pageLinkMix)
        = ["http://www.scp-wiki.net/x", "http://www.scp-wiki.net/z"] :=
  ⟨(c8_links_characterization pageLinkMix (by decide)).1, by decide⟩

/-- **C9** (counterexample).  On the text `"Comments (39)"` the code
stores the matched *string* `"39"`, not an integer: `comment_count` is
not "in all cases an integer". -/
theorem c9_comments_counterexample :
    parseComments (some "Comments (39)") = .s "39"
    ∧ (parseComments (some "Comments (39)")).isInt = false := by
  decide

/-- **C9** (amended).  `comment_count` is the integer `0` when the
discussion button is absent or its text holds no digit; otherwise it is
the *string* formed by the leftmost maximal digit run of the text. -/
theorem c9_comments_characterization (t : String) :
    parseComments none = .i 0
    ∧ ((∀ c ∈ t.data, c.isDigit = false) → parseComments (some t) = .i 0)
    ∧ ((∃ c ∈ t.data, c.isDigit = true) →
        parseComments (some t)
          = .s ⟨(t.data.dropWhile fun c => !c.isDigit).takeWhile Char.isDigit⟩) := by
  refine ⟨rfl, ?_, ?_⟩
  · intro hall
    have hnil : (t.data.dropWhile fun c => !c.isDigit) = [] := by
      apply List.dropWhile_eq_nil_iff.mpr
      intro x hx
      rw [hall x hx]
      rfl
    rw [parseComments, reSearchDigits_spec, hnil]
    rfl
  · rintro ⟨c, hc, hcd⟩
    have hne : (t.data.dropWhile fun c => !c.isDigit) ≠ [] := by
      intro hnil
      have := List.dropWhile_eq_nil_iff.mp hnil c hc
      rw [hcd] at this
      cases this
    rw [parseComments, reSearchDigits_spec,
      if_neg (by rwa [ne_eq, ← List.isEmpty_iff] at hne)]

/-- Witness for the amended C9 theorem. -/
theorem c9_comments_characterization_witness :
    parseComments (some "Discuss (39)")
      = .s ⟨(("Discuss (39)" : String).data.dropWhile fun c => !c.isDigit).takeWhile
          Char.isDigit⟩
    ∧ parseComments (some "no digits here") = .i 0 :=
  ⟨(c9_comments_characterization "Discuss (39)").2.2 ⟨'3', by decide, by decide⟩,
   (c9_comments_characterization "no digits here").2.1 (by decide)⟩

/-- **C10** (counterexample).  Two structurally equal content blocks do
*not* both receive the first block's title: by the time the second
block's `tabs.index(k)` runs, the first block has already been
re-attributed and prefixed with its title element, so it no longer
compares equal, and the second block matches itself and receives the
second title. -/
theorem c10_tab_duplicate_counterexample :
    parseTabview ["t1", "t2"] [tabX, tabX]
      = .ok [⟨none, [.titleDiv "t1", .other "x"]⟩, ⟨none, [.titleDiv "t2", .other "x"]⟩] := by
  decide

/-- **C10** (amended).  The title is selected by an index-of search over
the `tabs` list, but the list holds the *mutated* blocks: every earlier
block has already been normalized and given its title element.  Hence on
input whose blocks do not already begin with a title element (and with
enough titles) the assignment is purely positional — originally equal
blocks included. -/
theorem c10_tab_positional_assignment (titles : List String) (tabs : List TabBlock)
    (hclean : ∀ b ∈ tabs, headNotTitle b = true)
    (hlen : tabs.length ≤ titles.length) :
    parseTabview titles tabs = .ok ((tabs.zip titles).map tabAssign) := by
  rw [parseTabview]
  have := tabLoop_clean_ok titles tabs []
    (fun d hd => absurd hd (List.not_mem_nil d)) hclean (by simpa using hlen)
  simpa using this

/-- Witness for the amended C10 theorem: duplicate blocks each get their
own positional title. -/
theorem c10_tab_positional_witness :
    parseTabview ["ta", "tb"] [tabX, tabX]
      = .ok (([tabX, tabX].zip ["ta", "tb"]).map tabAssign) :=
  c10_tab_positional_assignment ["ta", "tb"] [tabX, tabX] (by decide) (by decide)

end Crawler
